import Mathlib

/-!
Verification development for the `cwmanage` ConnectWise Manage API client
(`src/lib.rs`).  The Rust code is shallowly embedded: pure helpers become Lean
functions, the HTTP transport becomes an explicit oracle (a list of mock
responses, or a fetch function), JSON values become an inductive type, and
panics are made explicit with a `PResult` type.
-/

namespace Cwmanage

/-- Model of `serde_json::Value` restricted to the shapes this library
manipulates.  Objects are the sorted entry lists of serde's default
`BTreeMap`-backed maps; numbers appearing in the claims are integers, so the
numeric case is `Int`. -/
inductive Json where
  | null : Json
  | bool : Bool → Json
  | int : Int → Json
  | str : String → Json
  | arr : List Json → Json
  | obj : List (String × Json) → Json
deriving Repr

/-- Model of `serde_json`'s `Value::get(key)`: `Some` only when the value is an
object containing the key. -/
def Json.get (v : Json) (key : String) : Option Json :=
  match v with
  | .obj kvs => kvs.lookup key
  | _ => none

/-- Model of `serde_json`'s `Index<&str>` for `Value` (`v["key"]`): field of an
object, `Null` when the key is missing or the value is not an object. -/
def Json.index (v : Json) (key : String) : Json :=
  match v with
  | .obj kvs =>
    match kvs.lookup key with
    | some x => x
    | none => .null
  | _ => .null

/-- Model of `Value::as_array`. -/
def Json.as_array : Json → Option (List Json)
  | .arr a => some a
  | _ => none

/-- Model of `Value::as_str`. -/
def Json.as_str : Json → Option String
  | .str s => some s
  | _ => none

/-- Model of `Value::as_i64` (numbers in this development are integers). -/
def Json.as_i64 : Json → Option Int
  | .int n => some n
  | _ => none

/-! ### UTF-8 and base64 (models of `String` bytes and the `base64` crate) -/

/-- Standard UTF-8 encoding of a single unicode scalar value, as a byte list. -/
def utf8EncodeCharNat (n : Nat) : List Nat :=
  if n < 0x80 then [n]
  else if n < 0x800 then [0xC0 + n / 64, 0x80 + n % 64]
  else if n < 0x10000 then [0xE0 + n / 4096, 0x80 + (n / 64) % 64, 0x80 + n % 64]
  else [0xF0 + n / 0x40000, 0x80 + (n / 4096) % 64, 0x80 + (n / 64) % 64, 0x80 + n % 64]

/-- The UTF-8 bytes of a string (how Rust's `String` stores it). -/
def strToUtf8 (s : String) : List Nat :=
  (s.data.map (fun c => utf8EncodeCharNat c.toNat)).flatten

/-- The base64 (RFC 4648, standard alphabet) digit for a 6-bit value; models the
`base64` crate's standard engine. -/
def b64Digit (n : Nat) : Char :=
  "ABCDEFGHIJKLMNOPQRSTUVWXYZabcdefghijklmnopqrstuvwxyz0123456789+/".data.getD n 'A'

/-- Base64 encoding with `=` padding of a byte list; models `base64::encode`. -/
def base64Encode : List Nat → String
  | [] => ""
  | [a] =>
    String.mk [b64Digit (a / 4), b64Digit (a % 4 * 16), '=', '=']
  | [a, b] =>
    String.mk [b64Digit (a / 4), b64Digit (a % 4 * 16 + b / 16), b64Digit (b % 16 * 4), '=']
  | a :: b :: c :: rest =>
    String.mk [b64Digit (a / 4), b64Digit (a % 4 * 16 + b / 16),
               b64Digit (b % 16 * 4 + c / 64), b64Digit (c % 64)] ++ base64Encode rest

/-! ### Compact JSON serialization (model of `serde_json::to_string`) -/

/-- Lowercase hex digit, as used by `serde_json` in `\u00XX` escapes. -/
def hexDigitLower (n : Nat) : Char :=
  "0123456789abcdef".data.getD n '0'

/-- Escaping of one character by `serde_json` inside a JSON string. -/
def jsonEscapeChar (c : Char) : String :=
  if c = '"' then "\\\""
  else if c = '\\' then "\\\\"
  else if c.toNat = 8 then "\\b"
  else if c.toNat = 9 then "\\t"
  else if c.toNat = 10 then "\\n"
  else if c.toNat = 12 then "\\f"
  else if c.toNat = 13 then "\\r"
  else if c.toNat < 32 then
    "\\u00" ++ String.mk [hexDigitLower (c.toNat / 16), hexDigitLower (c.toNat % 16)]
  else String.singleton c

/-- A JSON string literal (quotes plus escaping), as `serde_json` prints it. -/
def jsonEscapeString (s : String) : String :=
  "\"" ++ String.join (s.data.map jsonEscapeChar) ++ "\""

mutual

/-- Compact serialization of a `Json` value, as `serde_json::to_string`
produces it (no whitespace; object entries in map order). -/
def Json.toCompactString : Json → String
  | .null => "null"
  | .bool true => "true"
  | .bool false => "false"
  | .int n => toString n
  | .str s => jsonEscapeString s
  | .arr xs => "[" ++ jsonArrBody xs ++ "]"
  | .obj kvs => "\x7b" ++ jsonObjBody kvs ++ "\x7d"

/-- Comma-separated serialization of array elements. -/
def jsonArrBody : List Json → String
  | [] => ""
  | [x] => x.toCompactString
  | x :: y :: rest => x.toCompactString ++ "," ++ jsonArrBody (y :: rest)

/-- Comma-separated serialization of object entries. -/
def jsonObjBody : List (String × Json) → String
  | [] => ""
  | [(k, v)] => jsonEscapeString k ++ ":" ++ v.toCompactString
  | (k, v) :: p :: rest =>
    jsonEscapeString k ++ ":" ++ v.toCompactString ++ "," ++ jsonObjBody (p :: rest)

end

/-- Byte-wise (equivalently, scalar-value-wise) strict ordering on strings,
the order of `BTreeMap<String, _>` keys. -/
def strLt (a b : String) : Bool :=
  go a.data b.data
where
  go : List Char → List Char → Bool
    | [], [] => false
    | [], _ :: _ => true
    | _ :: _, [] => false
    | x :: xs, y :: ys =>
      if x.toNat < y.toNat then true
      else if y.toNat < x.toNat then false
      else go xs ys

/-- Insertion into a sorted entry list; models `BTreeMap::insert` (a later
insert with an equal key replaces the value). -/
def sortedInsert (k : String) (v : Json) : List (String × Json) → List (String × Json)
  | [] => [(k, v)]
  | (k', v') :: rest =>
    if strLt k k' then (k, v) :: (k', v') :: rest
    else if k = k' then (k, v) :: rest
    else (k', v') :: sortedInsert k v rest

/-- The map built by the `json!` object macro: entries inserted left to right
into a `BTreeMap`. -/
def mkMap (l : List (String × Json)) : List (String × Json) :=
  l.foldl (fun m kv => sortedInsert kv.1 kv.2 m) []

/-! ### The client (struct `Client` of `src/lib.rs`) -/

/-- Constant `DEFAULT_API_URL` of `src/lib.rs`. -/
def DEFAULT_API_URL : String := "na.myconnectwise.net"

/-- Constant `DEFAULT_API_CODEBASE` of `src/lib.rs`. -/
def DEFAULT_API_CODEBASE : String := "v4_6_release"

/-- Constant `DEFAULT_API_VERSION` of `src/lib.rs`. -/
def DEFAULT_API_VERSION : String := "3.0"

/-- The `Client` struct: four credential strings plus overridable host,
codebase and api version. -/
structure Client where
  company_id : String
  public_key : String
  private_key : String
  client_id : String
  api_url : String
  codebase : String
  api_version : String
deriving Repr, DecidableEq

/-- Constructor `Client::new`: the given credentials with the default url, codebase and
version. -/
def Client.new (company_id public_key private_key client_id : String) : Client :=
  { company_id, public_key, private_key, client_id,
    api_url := DEFAULT_API_URL,
    codebase := DEFAULT_API_CODEBASE,
    api_version := DEFAULT_API_VERSION }

/-- Finalizer `Client::build`: a field-by-field copy finalizing the client. -/
def Client.build (c : Client) : Client :=
  { company_id := c.company_id, public_key := c.public_key,
    private_key := c.private_key, client_id := c.client_id,
    api_url := c.api_url, codebase := c.codebase, api_version := c.api_version }

/-- Override `Client::api_version` (builder override; named `set_api_version` here
because `api_version` is the field projection). -/
def Client.set_api_version (c : Client) (api_version : String) : Client :=
  { c with api_version }

/-- Override `Client::api_url` (builder override). -/
def Client.set_api_url (c : Client) (api_url : String) : Client :=
  { c with api_url }

/-- Override `Client::codebase` (builder override). -/
def Client.set_codebase (c : Client) (codebase : String) : Client :=
  { c with codebase }

/-- Header builder `Client::gen_basic_auth`: `"Basic "` followed by the base64 encoding of
`"{company_id}+{public_key}:{private_key}"`. -/
def Client.gen_basic_auth (c : Client) : String :=
  "Basic " ++ base64Encode (strToUtf8 (c.company_id ++ "+" ++ c.public_key ++ ":" ++ c.private_key))

/-- URL builder `Client::gen_api_url`: `"https://{api_url}/{codebase}/apis/{api_version}{path}"`. -/
def Client.gen_api_url (c : Client) (path : String) : String :=
  "https://" ++ c.api_url ++ "/" ++ c.codebase ++ "/apis/" ++ c.api_version ++ path

/-! ### Panics made explicit -/

/-- The result of a computation that can `panic` (an `unwrap` failure or an
out-of-bounds index in the Rust code). -/
inductive PResult (α : Type) where
  | panic : PResult α
  | ok : α → PResult α
deriving Repr, DecidableEq

/-! ### Splitting (models of `str::split` and `Vec` indexing) -/

/-- Model of `str::split` with a single-character pattern, on the character
list of the string. -/
def splitChar (c : Char) : List Char → List (List Char)
  | [] => [[]]
  | x :: rest =>
    if x = c then [] :: splitChar c rest
    else
      match splitChar c rest with
      | seg :: segs => (x :: seg) :: segs
      | [] => [[x]]

/-- Fuel-driven worker for `splitSeq`; with fuel at least the length of the
input it splits on non-overlapping occurrences of `pat`, left to right. -/
def splitSeqFuel (pat : List Char) : Nat → List Char → List (List Char)
  | 0, s => [s]
  | _, [] => [[]]
  | n + 1, x :: rest =>
    if pat ≠ [] ∧ pat.isPrefixOf (x :: rest) then
      [] :: splitSeqFuel pat n ((x :: rest).drop pat.length)
    else
      match splitSeqFuel pat n rest with
      | seg :: segs => (x :: seg) :: segs
      | [] => [[x]]

/-- Model of `str::split` with a (non-empty) string pattern. -/
def splitSeq (pat s : List Char) : List (List Char) :=
  splitSeqFuel pat s.length s

/-! ### Model of the `url` crate (`Url::parse` and `query_pairs`) -/

/-- The character list after the first occurrence of `c`, if any. -/
def afterFirst (c : Char) : List Char → Option (List Char)
  | [] => none
  | x :: rest => if x = c then some rest else afterFirst c rest

/-- The character list before the first occurrence of `c` (the whole list when
`c` is absent). -/
def beforeFirst (c : Char) (s : List Char) : List Char :=
  s.takeWhile (· ≠ c)

/-- The numeric value of a hex digit, if it is one. -/
def hexVal (c : Char) : Option Nat :=
  if '0' ≤ c ∧ c ≤ '9' then some (c.toNat - 48)
  else if 'a' ≤ c ∧ c ≤ 'f' then some (c.toNat - 87)
  else if 'A' ≤ c ∧ c ≤ 'F' then some (c.toNat - 70)
  else none

/-- Form-urlencoded decoding of a query piece: `+` becomes a space and `%XX`
is percent-decoded (invalid escapes are kept verbatim), as the `url` crate's
`query_pairs` does. -/
def formDecode : List Char → List Char
  | [] => []
  | '%' :: a :: b :: rest =>
    match hexVal a, hexVal b with
    | some x, some y => Char.ofNat (16 * x + y) :: formDecode rest
    | _, _ => '%' :: formDecode (a :: b :: rest)
  | c :: rest => (if c = '+' then ' ' else c) :: formDecode rest

/-- One `key=value` query piece as a decoded string pair (a piece without `=`
becomes a pair with an empty value). -/
def queryPair (piece : List Char) : String × String :=
  match afterFirst '=' piece with
  | none => (String.mk (formDecode piece), "")
  | some v => (String.mk (formDecode (beforeFirst '=' piece)), String.mk (formDecode v))

/-- Model of `url::Url::parse` followed by `query_pairs`, restricted to what
`get_page_id` consumes: the parse succeeds exactly when the string starts with
a scheme (an ASCII letter followed by letters, digits, `+`, `-` or `.` up to a
`:`), and the observable result is the decoded query pairs — the part after
the first `?` (with any `#` fragment stripped) split on `&`, empty pieces
skipped, each piece split at its first `=`. -/
def urlParse (s : List Char) : Option (List (String × String)) :=
  if schemeOk s then
    some (match afterFirst '?' s with
          | none => []
          | some q =>
            ((splitChar '&' (beforeFirst '#' q)).filter (· ≠ [])).map queryPair)
  else none
where
  /-- Accepts `scheme:` at the front of the input. -/
  schemeOk : List Char → Bool
    | [] => false
    | c :: rest => c.isAlpha && schemeRest rest
  /-- The tail of a scheme followed by `:`. -/
  schemeRest : List Char → Bool
    | [] => false
    | c :: rest =>
      if c = ':' then true
      else (c.isAlphanum || c = '+' || c = '-' || c = '.') && schemeRest rest

/-! ### The pagination cursor (`get_page_id` of `src/lib.rs`) -/

/-- A response header value, as a byte list; each entry stands for one byte
(0–255), carried as a `Char` of that code. -/
abbrev HeaderBytes := List Char

/-- The `http` crate's `HeaderValue::to_str` validity test: every byte is
visible ASCII (32–126) or horizontal tab. -/
def headerBytesOk (bs : HeaderBytes) : Bool :=
  bs.all (fun c => (32 ≤ c.toNat && c.toNat < 127) || c.toNat = 9)

/-- Cursor extraction `get_page_id(hdrs)`: split the `link` header text on `"link ="` and keep
piece 0, split that on `<` and keep piece 1 (an out-of-bounds panic when there
is no `<`), split that on `>` and keep piece 0, parse it as a URL and look up
`pageId` in its query pairs (a `HashMap`, so the last pair with that key
wins).  `to_str().unwrap()` panics when the header bytes are not readable as a
string; `Url::parse(...).ok()?` turns a failed URL parse into `None`. -/
def get_page_id (bs : HeaderBytes) : PResult (Option String) :=
  if headerBytesOk bs then
    match (splitChar '<' ((splitSeq "link =".data bs).headD [])).get? 1 with
    | none => .panic
    | some seg1 =>
      match urlParse ((splitChar '>' seg1).headD []) with
      | none => .ok none
      | some pairs =>
        match ((pairs.filter (fun p => p.1 == "pageId")).getLast?).map (·.2) with
        | none => .ok none
        | some v => .ok (some v)
  else .panic

/-! ### The pagination walker (`Client::get` of `src/lib.rs`) -/

/-- What the walker observes of one HTTP response: the `link` header (absent,
or its raw bytes) and the result of `res.text()` plus
`serde_json::from_str::<Vec<Value>>` on the body. -/
structure MockResponse where
  link : Option HeaderBytes
  body : Except Unit (List Json)

/-- The `next`-assignment of the walker's loop: header absent or empty stops;
otherwise `get_page_id` either panics, stops, or yields the next page token. -/
def link_decision : Option HeaderBytes → PResult (Option String)
  | none => .ok none
  | some bs => if bs.isEmpty then .ok none else get_page_id bs

/-- How a run of the walker can end. -/
inductive GetOutcome where
  | ok : List Json → GetOutcome
  | err : GetOutcome
  | panicked : GetOutcome
  | needsMore : GetOutcome
deriving Repr

/-- The `while next` loop of `Client::get`, over a list of responses served in
request order (an `Except.error` entry is a failed `send()`).  Each iteration
inspects the headers first (possibly panicking in `get_page_id`), then reads
and parses the body (an error aborts the walk), appends the page's elements
and loops.  The first component is the `pageid` of every request issued;
`needsMore` means the walker would issue a further request beyond the supplied
responses. -/
def getPages : List (Except Unit MockResponse) → String → List Json →
    List String × GetOutcome
  | [], page, _ => ([page], .needsMore)
  | .error _ :: _, page, _ => ([page], .err)
  | .ok r :: rest, page, acc =>
    match link_decision r.link with
    | .panic => ([page], .panicked)
    | .ok dec =>
      match r.body with
      | .error _ => ([page], .err)
      | .ok v =>
        match dec with
        | some p =>
          let t := getPages rest p (acc ++ v)
          (page :: t.1, t.2)
        | none => ([page], .ok (acc ++ v))

/-- Walker entry `Client::get`: the walk starts with page token `"1"` and an empty
accumulator. -/
def Client.get (_c : Client) (responses : List (Except Unit MockResponse)) :
    List String × GetOutcome :=
  getPages responses "1" []

/-! ### Post and patch (`Client::post`, `PatchOp`, `Client::patch`) -/

/-- The error cases of the client's `anyhow::Result` values. -/
inductive CwError where
  | request : CwError
  | errors_field : CwError
  | message_field : CwError
  | custom_fields_missing : CwError
  | custom_fields_not_array : CwError
  | caption_not_string : CwError
  | id_not_i64 : CwError
  | id_not_found : CwError
deriving Repr, DecidableEq

/-- Model of `Client::post`, given the combined outcome of `send()?`, `text()?` and
`serde_json::from_str`: a transport or parse failure is an error; otherwise
the body's `errors` field being an array, or failing that its `message` field
being a string, signals an application-level error even though the transport
succeeded; otherwise the parsed value is returned. -/
def Client.post (_c : Client) (res : Except Unit Json) : Except CwError Json :=
  match res with
  | .error _ => .error .request
  | .ok v =>
    match (v.index "errors").as_array with
    | some _ => .error .errors_field
    | none =>
      match (v.index "message").as_str with
      | some _ => .error .message_field
      | none => .ok v

/-- The `PatchOp` enum: the three allowed patch operations. -/
inductive PatchOp where
  | add : PatchOp
  | replace : PatchOp
  | remove : PatchOp
deriving Repr, DecidableEq

/-- Serialization of `PatchOp` (its strum-derived `to_string`): the `#[strum(serialize = ...)]`
strings. -/
def PatchOp.toStr : PatchOp → String
  | .add => "add"
  | .replace => "replace"
  | .remove => "remove"

/-- The request body built by `Client::patch`:
`json!([{ "op": op.to_string(), "path": patch_path, "value": value }]).to_string()`. -/
def patch_body (op : PatchOp) (patch_path : String) (value : Json) : String :=
  Json.toCompactString
    (.arr [.obj (mkMap [("op", .str op.toStr), ("path", .str patch_path), ("value", value)])])

/-- The response handling of `Client::patch`: after the transport and parse, a
body whose `message` field is a string is an error; otherwise the parsed value
is returned. -/
def patch_response (res : Except Unit Json) : Except CwError Json :=
  match res with
  | .error _ => .error .request
  | .ok v =>
    match (v.index "message").as_str with
    | some _ => .error .message_field
    | none => .ok v

/-! ### Custom-field helpers (`get_custom_field`, `get_custom_field_id`) -/

/-- The `for f in custom_fields` loop of `Client::get_custom_field`: compare
every entry's `caption` (an `as_str().unwrap()`, so a non-string caption
panics) with the wanted field, remembering the `value` of the latest match. -/
def scan_captions (field : String) : Option Json → List Json → PResult (Option Json)
  | acc, [] => .ok acc
  | acc, f :: rest =>
    match (f.index "caption").as_str with
    | none => .panic
    | some cap =>
      scan_captions field (if cap = field then some (f.index "value") else acc) rest

/-- Model of `Client::get_custom_field`, with `get_single` abstracted as a fetch oracle
from a query to a parse outcome.  The oracle is consulted exactly once, at the
query `[("fields", "customFields")]`; the response must have a `customFields`
array, which is scanned for the caption. -/
def Client.get_custom_field (fetch : List (String × String) → Except Unit Json)
    (field : String) : PResult (Except CwError (Option Json)) :=
  match fetch [("fields", "customFields")] with
  | .error _ => .ok (.error .request)
  | .ok res =>
    match res.get "customFields" with
    | none => .ok (.error .custom_fields_missing)
    | some cf =>
      match cf.as_array with
      | none => .ok (.error .custom_fields_not_array)
      | some custom_fields =>
        match scan_captions field none custom_fields with
        | .panic => .panic
        | .ok found_field => .ok (.ok found_field)

/-- The loop of `Client::get_custom_field_id`: here a non-string caption and a
non-i64 id are `ok_or` errors, not panics; the id of the latest matching entry
replaces the accumulator (initially `0`). -/
def scan_ids (field : String) : Int → List Json → Except CwError Int
  | id, [] => .ok id
  | id, f :: rest =>
    match (f.index "caption").as_str with
    | none => .error .caption_not_string
    | some cap =>
      if cap = field then
        match (f.index "id").as_i64 with
        | none => .error .id_not_i64
        | some n => scan_ids field n rest
      else scan_ids field id rest

/-- Model of `Client::get_custom_field_id`: same projection fetch and scan, then
`match id { 0 => Err("couldn't get id"), _ => Ok(id) }` — the zero sentinel. -/
def Client.get_custom_field_id (fetch : List (String × String) → Except Unit Json)
    (field : String) : Except CwError Int :=
  match fetch [("fields", "customFields")] with
  | .error _ => .error .request
  | .ok res =>
    match res.get "customFields" with
    | none => .error .custom_fields_missing
    | some cf =>
      match cf.as_array with
      | none => .error .custom_fields_not_array
      | some custom_fields =>
        match scan_ids field 0 custom_fields with
        | .error e => .error e
        | .ok id => if id = 0 then .error .id_not_found else .ok id

/-! ### Concrete scenarios and stop predicate -/

/-- The end-of-pagination conditions of the spec: `link` header absent,
present but empty, or present but its embedded URL carrying no `pageId`
(the cursor extraction finds none). -/
def endsHere (link : Option HeaderBytes) : Prop :=
  link = none ∨ link = some [] ∨
    ∃ bs, link = some bs ∧ bs ≠ [] ∧ get_page_id bs = .ok none

/-- The page elements a response contributes (empty for failed exchanges or
unparsable bodies, which abort the walk anyway). -/
def bodyOr (x : Except Unit MockResponse) : List Json :=
  match x with
  | .ok r =>
    match r.body with
    | .ok v => v
    | .error _ => []
  | .error _ => []

/-- A `link` header value whose embedded URL carries `pageId=2`. -/
def linkToPage2 : HeaderBytes :=
  "<https://example.com/apis/3.0/x?pageId=2>; rel=\"next\"".data

/-- Mock transport: page 1 points at pageId 2, page 2 has an empty `link`
header. -/
def pagesDemo : List (Except Unit MockResponse) :=
  [.ok ⟨some linkToPage2, .ok [Json.int 1]⟩,
   .ok ⟨some [], .ok [Json.int 2]⟩]

/-- An object whose `customFields` hold one entry with caption `EPL` and value
`false`. -/
def eplFields : Json :=
  Json.obj [("customFields",
    Json.arr [Json.obj [("caption", Json.str "EPL"), ("value", Json.bool false)]])]

/-- A fetch oracle answering every query with `eplFields`. -/
def eplFetch : List (String × String) → Except Unit Json :=
  fun _ => .ok eplFields

/-- A fetch oracle whose `customFields` hold one entry with caption
`WaitReason` and id 67. -/
def waitReasonFetch : List (String × String) → Except Unit Json :=
  fun _ => .ok (Json.obj [("customFields",
    Json.arr [Json.obj [("caption", Json.str "WaitReason"), ("id", Json.int 67)]])])

/-- A response body carrying a non-empty `errors` array. -/
def errBody : Json := Json.obj [("errors", Json.arr [Json.str "bad"])]

/-- A response body with neither an `errors` array nor a `message` string. -/
def okBody : Json := Json.obj [("id", Json.int 42)]

/-- One custom-field entry with caption `EPL` and value `false`. -/
def eplEntry : Json := Json.obj [("caption", Json.str "EPL"), ("value", Json.bool false)]

/-- One custom-field entry with caption `WaitReason` and id 67. -/
def waitReasonEntry : Json :=
  Json.obj [("caption", Json.str "WaitReason"), ("id", Json.int 67)]

/-- A fetch oracle whose single custom field has caption `Zeroed` and id 0. -/
def zeroIdFetch : List (String × String) → Except Unit Json :=
  fun _ => .ok (Json.obj [("customFields",
    Json.arr [Json.obj [("caption", Json.str "Zeroed"), ("id", Json.int 0)]])])

/-! ## Helper lemmas -/

theorem str_data_append (a b : String) : (a ++ b).data = a.data ++ b.data := by
  cases a; cases b; rfl

theorem str_eq_of_data {a b : String} (h : a.data = b.data) : a = b := by
  cases a; cases b; exact congrArg String.mk h

theorem getPages_trace_head (rs : List (Except Unit MockResponse)) (page : String)
    (acc : List Json) : ∃ t, (getPages rs page acc).1 = page :: t := by
  match rs with
  | [] => exact ⟨[], rfl⟩
  | .error e :: rest => exact ⟨[], rfl⟩
  | .ok r :: rest =>
    rcases hd : link_decision r.link with _ | dec
    · exact ⟨[], by simp [getPages, hd]⟩
    · rcases hb : r.body with _ | v
      · exact ⟨[], by simp [getPages, hd, hb]⟩
      · rcases dec with _ | p
        · exact ⟨[], by simp [getPages, hd, hb]⟩
        · exact ⟨(getPages rest p (acc ++ v)).1, by simp [getPages, hd, hb]⟩

theorem link_decision_stop_iff (link : Option HeaderBytes) :
    link_decision link = .ok none ↔ endsHere link := by
  cases link with
  | none => simp [link_decision, endsHere]
  | some bs =>
    cases bs with
    | nil => simp [link_decision, endsHere]
    | cons c cs => simp [link_decision, endsHere]

theorem getPages_ok_flatten :
    ∀ (rs : List (Except Unit MockResponse)) (page : String) (acc : List Json)
      (ts : List String) (l : List Json),
      getPages rs page acc = (ts, .ok l) →
      l = acc ++ ((rs.take ts.length).map bodyOr).flatten := by
  intro rs
  induction rs with
  | nil =>
    intro page acc ts l h
    simp [getPages] at h
  | cons x rest ih =>
    intro page acc ts l h
    match x with
    | .error e => simp [getPages] at h
    | .ok r =>
      rcases hd : link_decision r.link with _ | dec
      · simp [getPages, hd] at h
      · rcases hb : r.body with _ | v
        · simp [getPages, hd, hb] at h
        · rcases dec with _ | p
          · simp [getPages, hd, hb] at h
            rcases h with ⟨h1, h2⟩
            subst h1
            simp [← h2, bodyOr, hb]
          · simp [getPages, hd, hb] at h
            rcases h with ⟨h1, h2⟩
            have hp : getPages rest p (acc ++ v) = ((getPages rest p (acc ++ v)).1, .ok l) := by
              rw [← h2]
            have := ih p (acc ++ v) (getPages rest p (acc ++ v)).1 l hp
            subst h1
            simp [this, bodyOr, hb, List.append_assoc]

/-! ## Claims -/

/-- C1: for every sequence of responses, the pagination walker stops issuing
requests, ending normally with `Ok`, exactly when the current response's
`link` header is absent, present but empty, or present but with no `pageId`
extractable from its embedded URL — and in that case the body must also have
parsed. -/
theorem c1_get_stops_iff_link_ends (r : MockResponse)
    (rest : List (Except Unit MockResponse)) (page : String) (acc : List Json) :
    (∃ l, getPages (.ok r :: rest) page acc = ([page], .ok l)) ↔
      (endsHere r.link ∧ ∃ v, r.body = .ok v) := by
  constructor
  · rintro ⟨l, hl⟩
    rcases hd : link_decision r.link with _ | dec
    · simp [getPages, hd] at hl
    · rcases hb : r.body with _ | v
      · simp [getPages, hd, hb] at hl
      · rcases dec with _ | p
        · exact ⟨(link_decision_stop_iff r.link).1 hd, v, rfl⟩
        · simp [getPages, hd, hb] at hl
          obtain ⟨t, ht⟩ := getPages_trace_head rest p (acc ++ v)
          rw [ht] at hl
          simp at hl
  · rintro ⟨hend, v, hb⟩
    have hd : link_decision r.link = .ok none := (link_decision_stop_iff r.link).2 hend
    exact ⟨acc ++ v, by simp [getPages, hd, hb]⟩

/-- C2: the walker initializes its page token to `"1"`; on the two-page mock
scenario (page 1's `link` header points at pageId 2, page 2's is empty) it
returns page 1's elements followed by page 2's and issues exactly the two
requests; and in general an `Ok` result is the concatenation, in page order,
of the array elements of the consumed responses. -/
theorem c2_get_init_and_order :
    (∀ (c : Client) (rs : List (Except Unit MockResponse)),
        ∃ t, (Client.get c rs).1 = "1" :: t)
    ∧ (∀ (c : Client) (a1 a2 : List Json) (extra : List (Except Unit MockResponse)),
        Client.get c (.ok ⟨some linkToPage2, .ok a1⟩ :: .ok ⟨some [], .ok a2⟩ :: extra)
          = (["1", "2"], .ok (a1 ++ a2)))
    ∧ (∀ (c : Client) (rs : List (Except Unit MockResponse)) (ts : List String)
        (l : List Json),
        Client.get c rs = (ts, .ok l) →
        l = ((rs.take ts.length).map bodyOr).flatten) := by
  refine ⟨fun c rs => getPages_trace_head rs "1" [], fun c a1 a2 extra => ?_, ?_⟩
  · have h2 : link_decision (some linkToPage2) = .ok (some "2") := by decide
    have h0 : link_decision (some ([] : HeaderBytes)) = .ok none := by decide
    show getPages _ "1" [] = _
    simp [getPages, h2, h0]
  · intro c rs ts l h
    simpa using getPages_ok_flatten rs "1" [] ts l h

/-- C2 witness: the concrete two-page walk, with the general concatenation
fact instantiated on it. -/
theorem c2_get_init_and_order_witness :
    Client.get (Client.new "a" "b" "k" "d") pagesDemo
      = (["1", "2"], .ok [Json.int 1, Json.int 2])
    ∧ [Json.int 1, Json.int 2] = ((pagesDemo.take 2).map bodyOr).flatten := by
  constructor
  · exact c2_get_init_and_order.2.1 (Client.new "a" "b" "k" "d") [Json.int 1] [Json.int 2] []
  · exact c2_get_init_and_order.2.2 (Client.new "a" "b" "k" "d") pagesDemo
      ["1", "2"] [Json.int 1, Json.int 2] (by rfl)

/-- C3: a failed HTTP exchange, or a body that fails to parse as a JSON array
(when the header inspection itself does not panic), makes the walker return an
error at once: the trace shows no further request and the outcome is the bare
error, with no partial results. -/
theorem c3_get_error_aborts :
    (∀ (rest : List (Except Unit MockResponse)) (page : String) (acc : List Json),
        getPages (.error () :: rest) page acc = ([page], .err))
    ∧ (∀ (r : MockResponse) (rest : List (Except Unit MockResponse)) (page : String)
        (acc : List Json),
        link_decision r.link ≠ .panic → r.body = .error () →
        getPages (.ok r :: rest) page acc = ([page], .err)) := by
  constructor
  · intro rest page acc; rfl
  · intro r rest page acc hdec hbody
    rcases hd : link_decision r.link with _ | dec
    · exact absurd hd hdec
    · simp [getPages, hd, hbody]

/-- C3 witness: a first-page parse failure aborts the walk with an error and
no further request. -/
theorem c3_get_error_aborts_witness :
    getPages [.ok ⟨none, .error ()⟩, .ok ⟨none, .ok [Json.int 5]⟩] "1" [] = (["1"], .err) :=
  c3_get_error_aborts.2 ⟨none, .error ()⟩ [.ok ⟨none, .ok [Json.int 5]⟩] "1" []
    (by decide) rfl

/-- C4: `post` returns an error whenever the parsed response body carries an
`errors` array or a `message` string, even though the transport succeeded;
when neither is present it returns the parsed value unchanged. -/
theorem c4_post_error_sniffing (c : Client) (v : Json) :
    (((v.index "errors").as_array ≠ none ∨ (v.index "message").as_str ≠ none) →
      ∃ e, Client.post c (.ok v) = .error e)
    ∧ ((v.index "errors").as_array = none → (v.index "message").as_str = none →
      Client.post c (.ok v) = .ok v) := by
  constructor
  · intro h
    rcases he : (v.index "errors").as_array with _ | a
    · rcases hm : (v.index "message").as_str with _ | m
      · rcases h with h | h
        · exact absurd he h
        · exact absurd hm h
      · exact ⟨.message_field, by simp [Client.post, he, hm]⟩
    · exact ⟨.errors_field, by simp [Client.post, he]⟩
  · intro he hm
    simp [Client.post, he, hm]

/-- C4 witness: an `errors` array yields an error; a clean body is returned
unchanged. -/
theorem c4_post_error_sniffing_witness :
    (∃ e, Client.post (Client.new "a" "b" "k" "d") (.ok errBody) = .error e)
    ∧ Client.post (Client.new "a" "b" "k" "d") (.ok okBody) = .ok okBody := by
  constructor
  · exact (c4_post_error_sniffing (Client.new "a" "b" "k" "d") errBody).1
      (Or.inl (by exact Option.some_ne_none _))
  · exact (c4_post_error_sniffing (Client.new "a" "b" "k" "d") okBody).2 rfl rfl

/-- C5: `patch` serializes its request body as the one-element JSON-Patch-like
array `[{"op": ..., "path": ..., "value": ...}]`, `op` serializing to `add`,
`replace` or `remove`; the `Replace`/`name`/`"X"` instance is byte-exact. -/
theorem c5_patch_body_serialization :
    (∀ op : PatchOp, op.toStr = "add" ∨ op.toStr = "replace" ∨ op.toStr = "remove")
    ∧ (∀ (op : PatchOp) (field : String) (value : Json),
        patch_body op field value
          = "[\x7b\"op\":" ++ jsonEscapeString op.toStr ++ ",\"path\":"
              ++ jsonEscapeString field ++ ",\"value\":" ++ value.toCompactString ++ "\x7d]")
    ∧ patch_body .replace "name" (.str "X")
        = "[\x7b\"op\":\"replace\",\"path\":\"name\",\"value\":\"X\"\x7d]" := by
  refine ⟨fun op => by cases op <;> simp [PatchOp.toStr], fun op field value => ?_, by rfl⟩
  apply str_eq_of_data
  have hm : mkMap [("op", Json.str op.toStr), ("path", Json.str field), ("value", value)]
      = [("op", Json.str op.toStr), ("path", Json.str field), ("value", value)] := rfl
  simp only [patch_body, hm, Json.toCompactString, jsonArrBody, jsonObjBody,
    str_data_append, List.append_assoc]
  rfl

/-- C6: the request URL is the plain concatenation
`https://{host}/{codebase}/apis/{version}{path}`, with no validation of the
path; with host `h`, codebase `c`, version `v`, path `/p` it is exactly
`https://h/c/apis/v/p`, whatever the credentials. -/
theorem c6_gen_api_url :
    (∀ (c : Client) (path : String),
        c.gen_api_url path
          = "https://" ++ c.api_url ++ "/" ++ c.codebase ++ "/apis/"
              ++ c.api_version ++ path)
    ∧ (∀ a b k d : String,
        (((((Client.new a b k d).set_api_url "h").set_codebase "c").set_api_version
            "v").build).gen_api_url "/p"
          = "https://h/c/apis/v/p")
    ∧ (∀ a b k d : String,
        ((Client.new a b k d).build).gen_api_url "/system/info"
          = "https://na.myconnectwise.net/v4_6_release/apis/3.0/system/info") :=
  ⟨fun _ _ => rfl, fun _ _ _ _ => rfl, fun _ _ _ _ => rfl⟩

/-- C7: the authentication header is `"Basic "` plus the base64 encoding of
`company_id + "+" + public_key + ":" + private_key`, independent of the client
id; for `myco`/`pub`/`priv` it is the fixed string
`Basic bXljbytwdWI6cHJpdg==` for every client id. -/
theorem c7_gen_basic_auth :
    (∀ c : Client,
        c.gen_basic_auth = "Basic " ++ base64Encode (strToUtf8
          (c.company_id ++ "+" ++ c.public_key ++ ":" ++ c.private_key)))
    ∧ (∀ cid : String,
        ((Client.new "myco" "pub" "priv" cid).build).gen_basic_auth
          = "Basic bXljbytwdWI6cHJpdg==") :=
  ⟨fun _ => rfl, fun cid => by
    show "Basic " ++ base64Encode (strToUtf8 ("myco" ++ "+" ++ "pub" ++ ":" ++ "priv"))
        = "Basic bXljbytwdWI6cHJpdg=="
    decide⟩

theorem scan_captions_no_match :
    ∀ (fields : List Json) (field : String) (acc : Option Json),
      (∀ f ∈ fields, ∃ s, (f.index "caption").as_str = some s ∧ s ≠ field) →
      scan_captions field acc fields = .ok acc := by
  intro fields
  induction fields with
  | nil => intro field acc _; rfl
  | cons f rest ih =>
    intro field acc h
    obtain ⟨s, hs, hne⟩ := h f (by simp)
    simp only [scan_captions, hs, if_neg hne]
    exact ih field acc (fun g hg => h g (by simp [hg]))

theorem scan_captions_prefix :
    ∀ (pre : List Json) (field : String) (acc : Option Json) (rest : List Json),
      (∀ g ∈ pre, ((g.index "caption").as_str).isSome = true) →
      ∃ acc', scan_captions field acc (pre ++ rest) = scan_captions field acc' rest := by
  intro pre
  induction pre with
  | nil => intro field acc rest _; exact ⟨acc, rfl⟩
  | cons g gs ih =>
    intro field acc rest h
    have hg := h g (by simp)
    rcases hs : (g.index "caption").as_str with _ | s
    · rw [hs] at hg; simp at hg
    · simp only [List.cons_append, scan_captions, hs]
      exact ih field _ rest (fun x hx => h x (by simp [hx]))

/-- C8: `get_custom_field` consults its fetch oracle only at the query
`[("fields", "customFields")]`, linearly scans the `customFields` array for a
caption equal to the wanted field, answers the (last) matching entry's value,
`none` when no caption matches, and on the `EPL`/`false` example answers
`false` for `EPL` and not-found for `Missing`. -/
theorem c8_get_custom_field :
    (∀ (fetch fetch' : List (String × String) → Except Unit Json) (field : String),
        fetch [("fields", "customFields")] = fetch' [("fields", "customFields")] →
        Client.get_custom_field fetch field = Client.get_custom_field fetch' field)
    ∧ (∀ (field : String) (fields : List Json),
        (∀ f ∈ fields, ∃ s, (f.index "caption").as_str = some s ∧ s ≠ field) →
        Client.get_custom_field
            (fun _ => .ok (Json.obj [("customFields", Json.arr fields)])) field
          = .ok (.ok none))
    ∧ (∀ (field : String) (pre post : List Json) (f : Json),
        (∀ g ∈ pre, ((g.index "caption").as_str).isSome = true) →
        (f.index "caption").as_str = some field →
        (∀ g ∈ post, ∃ s, (g.index "caption").as_str = some s ∧ s ≠ field) →
        Client.get_custom_field
            (fun _ => .ok (Json.obj [("customFields", Json.arr (pre ++ f :: post))])) field
          = .ok (.ok (some (f.index "value"))))
    ∧ Client.get_custom_field eplFetch "EPL" = .ok (.ok (some (Json.bool false)))
    ∧ Client.get_custom_field eplFetch "Missing" = .ok (.ok none) := by
  refine ⟨?_, ?_, ?_, by rfl, by rfl⟩
  · intro fetch fetch' field h
    unfold Client.get_custom_field
    rw [h]
  · intro field fields h
    have hred : Client.get_custom_field
        (fun _ => .ok (Json.obj [("customFields", Json.arr fields)])) field
        = (match scan_captions field none fields with
           | .panic => .panic
           | .ok r => .ok (.ok r)) := rfl
    rw [hred, scan_captions_no_match fields field none h]
  · intro field pre post f hpre hf hpost
    have hred : Client.get_custom_field
        (fun _ => .ok (Json.obj [("customFields", Json.arr (pre ++ f :: post))])) field
        = (match scan_captions field none (pre ++ f :: post) with
           | .panic => .panic
           | .ok r => .ok (.ok r)) := rfl
    have hscan : scan_captions field none (pre ++ f :: post) = .ok (some (f.index "value")) := by
      obtain ⟨acc', hacc⟩ := scan_captions_prefix pre field none (f :: post) hpre
      rw [hacc]
      simp only [scan_captions, hf, if_pos rfl]
      exact scan_captions_no_match post field _ hpost
    rw [hred, hscan]

/-- C8 witness: the concrete `EPL` lookups, through the general match and
no-match conjuncts. -/
theorem c8_get_custom_field_witness :
    Client.get_custom_field eplFetch "EPL" = .ok (.ok (some (Json.bool false)))
    ∧ Client.get_custom_field eplFetch "Missing" = .ok (.ok none) := by
  constructor
  · exact c8_get_custom_field.2.2.1 "EPL" [] [] eplEntry (by simp) rfl (by simp)
  · exact c8_get_custom_field.2.1 "Missing" [eplEntry]
      (by
        intro f hf
        simp only [List.mem_singleton] at hf
        subst hf
        exact ⟨"EPL", rfl, by decide⟩)

theorem scan_ids_no_match :
    ∀ (fields : List Json) (field : String) (id : Int),
      (∀ f ∈ fields, ∃ s, (f.index "caption").as_str = some s ∧ s ≠ field) →
      scan_ids field id fields = .ok id := by
  intro fields
  induction fields with
  | nil => intro field id _; rfl
  | cons f rest ih =>
    intro field id h
    obtain ⟨s, hs, hne⟩ := h f (by simp)
    simp only [scan_ids, hs, if_neg hne]
    exact ih field id (fun g hg => h g (by simp [hg]))

/-- C9: `get_custom_field_id` answers the id of the entry whose caption
matches, fails when no caption matches, and — because id 0 is its "not found"
sentinel — also fails when the matching entry's id is legitimately 0. -/
theorem c9_get_custom_field_id :
    (∀ (field : String) (fields : List Json),
        (∀ f ∈ fields, ∃ s, (f.index "caption").as_str = some s ∧ s ≠ field) →
        Client.get_custom_field_id
            (fun _ => .ok (Json.obj [("customFields", Json.arr fields)])) field
          = .error .id_not_found)
    ∧ (∀ (field : String) (pre post : List Json) (f : Json) (n : Int),
        (∀ g ∈ pre, ∃ s, (g.index "caption").as_str = some s ∧ s ≠ field) →
        (f.index "caption").as_str = some field →
        (f.index "id").as_i64 = some n →
        (∀ g ∈ post, ∃ s, (g.index "caption").as_str = some s ∧ s ≠ field) →
        Client.get_custom_field_id
            (fun _ => .ok (Json.obj [("customFields", Json.arr (pre ++ f :: post))])) field
          = if n = 0 then .error .id_not_found else .ok n) := by
  constructor
  · intro field fields h
    have hred : Client.get_custom_field_id
        (fun _ => .ok (Json.obj [("customFields", Json.arr fields)])) field
        = (match scan_ids field 0 fields with
           | .error e => .error e
           | .ok id => if id = 0 then .error .id_not_found else .ok id) := rfl
    rw [hred, scan_ids_no_match fields field 0 h]
    simp
  · intro field pre post f n hpre hf hn hpost
    have hred : Client.get_custom_field_id
        (fun _ => .ok (Json.obj [("customFields", Json.arr (pre ++ f :: post))])) field
        = (match scan_ids field 0 (pre ++ f :: post) with
           | .error e => .error e
           | .ok id => if id = 0 then .error .id_not_found else .ok id) := rfl
    have hskip : ∀ (preList : List Json) (id : Int),
        (∀ g ∈ preList, ∃ s, (g.index "caption").as_str = some s ∧ s ≠ field) →
        scan_ids field id (preList ++ f :: post) = scan_ids field id (f :: post) := by
      intro preList
      induction preList with
      | nil => intro id _; rfl
      | cons g gs ih =>
        intro id h
        obtain ⟨s, hs, hne⟩ := h g (by simp)
        simp only [List.cons_append, scan_ids, hs, if_neg hne]
        exact ih id (fun x hx => h x (by simp [hx]))
    have hscan : scan_ids field 0 (pre ++ f :: post) = .ok n := by
      rw [hskip pre 0 hpre]
      simp only [scan_ids, hf, hn, if_pos rfl]
      exact scan_ids_no_match post field n hpost
    rw [hred, hscan]

/-- C9 witness: the matching caption with id 67 is answered; a matching
caption whose id is legitimately 0 is reported as not found. -/
theorem c9_get_custom_field_id_witness :
    Client.get_custom_field_id waitReasonFetch "WaitReason" = .ok 67
    ∧ Client.get_custom_field_id zeroIdFetch "Zeroed" = .error .id_not_found := by
  constructor
  · exact c9_get_custom_field_id.2 "WaitReason" [] [] waitReasonEntry 67
      (by simp) rfl rfl (by simp)
  · exact c9_get_custom_field_id.2 "Zeroed" [] []
      (Json.obj [("caption", Json.str "Zeroed"), ("id", Json.int 0)]) 0
      (by simp) rfl rfl (by simp)

theorem splitChar_ne_nil (c : Char) : ∀ s : List Char, splitChar c s ≠ [] := by
  intro s
  cases s with
  | nil => simp [splitChar]
  | cons x rest =>
    simp only [splitChar]
    split
    · simp
    · split
      · simp
      · simp

theorem splitChar_eq_of_not_mem (c : Char) :
    ∀ s : List Char, c ∉ s → splitChar c s = [s] := by
  intro s
  induction s with
  | nil => intro _; rfl
  | cons x rest ih =>
    intro h
    have hx : ¬x = c := fun he => h (he ▸ List.mem_cons_self x rest)
    have hr : splitChar c rest = [rest] := ih (fun hm => h (List.mem_cons_of_mem x hm))
    simp [splitChar, hx, hr]

theorem splitChar_length (c : Char) :
    ∀ s : List Char, (splitChar c s).length = s.count c + 1 := by
  intro s
  induction s with
  | nil => simp [splitChar]
  | cons x rest ih =>
    rcases hr : splitChar c rest with _ | ⟨seg, segs⟩
    · exact absurd hr (splitChar_ne_nil c rest)
    · rw [hr] at ih
      by_cases hx : x = c
      · subst hx
        simp only [splitChar, if_pos rfl, hr, List.count_cons, List.length_cons] at ih ⊢
        simp at ih ⊢
        omega
      · simp only [splitChar, if_neg hx, hr, List.count_cons, List.length_cons] at ih ⊢
        have hbx : (x == c) = false := by simp [hx]
        simp [hbx] at ih ⊢
        omega

theorem splitSeqFuel_head_mem (pat : List Char) :
    ∀ (n : Nat) (s : List Char) (x : Char),
      x ∈ (splitSeqFuel pat n s).headD [] → x ∈ s := by
  intro n
  induction n with
  | zero =>
    intro s x hx
    simpa [splitSeqFuel] using hx
  | succ n ih =>
    intro s x hx
    match s with
    | [] => simp [splitSeqFuel] at hx
    | y :: rest =>
      unfold splitSeqFuel at hx
      split at hx
      · simp at hx
      · rcases hr : splitSeqFuel pat n rest with _ | ⟨seg, segs⟩
        · rw [hr] at hx
          simp at hx
          simp [hx]
        · rw [hr] at hx
          simp at hx
          rcases hx with hx | hx
          · simp [hx]
          · have hmem : x ∈ (splitSeqFuel pat n rest).headD [] := by
              rw [hr]; simpa using hx
            exact List.mem_cons_of_mem y (ih rest x hmem)

theorem get_page_id_panic_of_not_mem_head (bs : HeaderBytes)
    (hok : headerBytesOk bs = true)
    (h0 : '<' ∉ (splitSeq "link =".data bs).headD []) : get_page_id bs = .panic := by
  have h1 := splitChar_eq_of_not_mem '<' ((splitSeq "link =".data bs).headD []) h0
  unfold get_page_id
  rw [if_pos hok, h1]
  rfl

theorem get_page_id_panic_of_no_lt (bs : HeaderBytes) (hok : headerBytesOk bs = true)
    (hmem : '<' ∉ bs) : get_page_id bs = .panic :=
  get_page_id_panic_of_not_mem_head bs hok
    (fun hx => hmem (splitSeqFuel_head_mem "link =".data bs.length bs '<' hx))

/-- C10: on a non-empty `link` header whose bytes are unreadable as a string
or whose value contains no `<`, the cursor extraction panics (and so does the
walker) instead of returning `None` or an error; `get_page_id` is panic-free
exactly when the header is readable and the `<`-delimited segment exists. -/
theorem c10_get_page_id_panics :
    (∀ bs : HeaderBytes, headerBytesOk bs = false → get_page_id bs = .panic)
    ∧ (∀ bs : HeaderBytes, headerBytesOk bs = true → bs ≠ [] → '<' ∉ bs →
        get_page_id bs = .panic)
    ∧ (∀ (r : MockResponse) (rest : List (Except Unit MockResponse)) (page : String)
        (acc : List Json) (bs : HeaderBytes),
        r.link = some bs → bs ≠ [] → headerBytesOk bs = true → '<' ∉ bs →
        getPages (.ok r :: rest) page acc = ([page], .panicked))
    ∧ (∀ bs : HeaderBytes, get_page_id bs ≠ .panic ↔
        (headerBytesOk bs = true ∧ '<' ∈ (splitSeq "link =".data bs).headD [])) := by
  refine ⟨?_, ?_, ?_, ?_⟩
  · intro bs h
    simp [get_page_id, h]
  · intro bs hok _ hmem
    exact get_page_id_panic_of_no_lt bs hok hmem
  · intro r rest page acc bs hlink hne hok hmem
    have hp := get_page_id_panic_of_no_lt bs hok hmem
    have hd : link_decision r.link = .panic := by
      rw [hlink]
      cases bs with
      | nil => exact absurd rfl hne
      | cons b bsr => simpa [link_decision] using hp
    simp [getPages, hd]
  · intro bs
    constructor
    · intro h
      by_cases hok : headerBytesOk bs = true
      · refine ⟨hok, ?_⟩
        by_contra hmem
        exact h (get_page_id_panic_of_not_mem_head bs hok hmem)
      · refine absurd ?_ h
        unfold get_page_id
        rw [if_neg hok]
    · rintro ⟨hok, hmem⟩ hpanic
      have hlen : 1 < (splitChar '<' ((splitSeq "link =".data bs).headD [])).length := by
        rw [splitChar_length]
        have hc : 0 < ((splitSeq "link =".data bs).headD []).count '<' :=
          List.count_pos_iff.mpr hmem
        omega
      obtain ⟨seg1, hseg⟩ : ∃ seg1,
          (splitChar '<' ((splitSeq "link =".data bs).headD [])).get? 1 = some seg1 := by
        cases hq : (splitChar '<' ((splitSeq "link =".data bs).headD [])).get? 1 with
        | some s => exact ⟨s, rfl⟩
        | none =>
          rw [List.get?_eq_none] at hq
          omega
      unfold get_page_id at hpanic
      rw [if_pos hok] at hpanic
      simp only [hseg] at hpanic
      rcases hu : urlParse ((splitChar '>' seg1).headD []) with _ | pairs
      · simp only [hu] at hpanic
        exact PResult.noConfusion hpanic
      · simp only [hu] at hpanic
        rcases hl : ((pairs.filter (fun p => p.1 == "pageId")).getLast?).map (·.2) with _ | v
        · simp only [hl] at hpanic
          exact PResult.noConfusion hpanic
        · simp only [hl] at hpanic
          exact PResult.noConfusion hpanic

/-- C10 witness: a concrete non-empty readable `link` header value without a
`<` makes `get_page_id` panic. -/
theorem c10_get_page_id_panics_witness :
    get_page_id "no angle bracket here".data = .panic :=
  c10_get_page_id_panics.2.1 "no angle bracket here".data (by decide) (by decide) (by decide)

end Cwmanage
